import Mathlib

/-!
Verification of the fusion-benchmark scoring core of `grailbio/bio`
(`fusion/benchmark`): gene-pair canonicalization (`GenePair`), the
multi-call resolver and frequency table of `TargetedFusionStats`, the
scorer (`stats`), the alias substitutions applied to the truth set, the
log-stats extractor (`util.run_stats`), and the precision/recall
computation of `benchmark_starfusion_result_analysis.main`.

Python strings are modelled as `List Char`; Python `dict`/`Counter` as an
insertion-ordered association list; Python `set` as `Finset`; fallible
code (exceptions such as `ValueError`, `KeyError`, `IndexError`,
`AssertionError`, `ZeroDivisionError`) as `Option`, with `none` for a
raised exception; float timestamps as rationals.
-/

/-- Character list of a string literal, used to write concrete inputs. -/
def chars (s : String) : List Char := s.data

/-! ## String helpers mirroring the Python `str` methods used by the code -/

/-- Python string comparison `a < b`: lexicographic on code points. -/
def strLt : List Char → List Char → Bool
  | [], [] => false
  | [], _ :: _ => true
  | _ :: _, [] => false
  | a :: as, b :: bs => if a < b then true else if b < a then false else strLt as bs

/-- Helper for the splitters: prepend a character to the first piece. -/
def consHead (c : Char) : List (List Char) → List (List Char)
  | [] => [[c]]
  | p :: ps => (c :: p) :: ps

/-- Python `s.split(sep)` for a one-character separator `sep`. -/
def splitOn1 (sep : Char) : List Char → List (List Char)
  | [] => [[]]
  | c :: rest => if c = sep then [] :: splitOn1 sep rest else consHead c (splitOn1 sep rest)

/-- Python `s.split(ab)` for a two-character separator `ab` (leftmost,
non-overlapping occurrences). -/
def splitOn2 (a b : Char) : List Char → List (List Char)
  | [] => [[]]
  | [c] => [[c]]
  | c :: d :: rest =>
    if c = a ∧ d = b then [] :: splitOn2 a b rest
    else consHead c (splitOn2 a b (d :: rest))

/-- Python `s.strip()` restricted to one side: drop leading whitespace. -/
def wsDrop (l : List Char) : List Char := l.dropWhile Char.isWhitespace

/-- Python `s.strip()`: drop leading and trailing whitespace. -/
def wsStrip (l : List Char) : List Char := (wsDrop (wsDrop l.reverse)).reverse

/-- Python `s.split()` (no argument): split on whitespace runs, dropping
empty pieces. -/
def wsSplitGo (acc : List Char) : List Char → List (List Char)
  | [] => if acc = [] then [] else [acc.reverse]
  | c :: rest =>
    if c.isWhitespace then
      if acc = [] then wsSplitGo [] rest else acc.reverse :: wsSplitGo [] rest
    else wsSplitGo (c :: acc) rest

/-- Python `s.split()` (no argument). -/
def wsSplit (l : List Char) : List (List Char) := wsSplitGo [] l

/-! ## GenePair (`simulated_benchmark.GenePair`) -/

/-- Canonical, orientation-independent pair of gene names; the two names
are stored sorted (`GenePair.__init__` swaps them when `g1 > g2`). -/
structure GenePair where
  g1 : List Char
  g2 : List Char
deriving DecidableEq

/-- The swap-if-out-of-order step at the end of `GenePair.__init__`. -/
def canonPair (a b : List Char) : GenePair :=
  if strLt b a then ⟨b, a⟩ else ⟨a, b⟩

/-- Tuple unpacking `g1, g2 = parts`: succeeds only on a two-element
list (a `ValueError` otherwise). -/
def pairOf : List (List Char) → Option GenePair
  | [a, b] => some (canonPair a b)
  | _ => none

/-- `GenePair.__init__`: split on `"/"` when the string contains a `'/'`,
otherwise on `"--"`, then canonicalize; `none` models the `ValueError`
raised when the split does not give exactly two names. -/
def mkGenePair (pair : List Char) : Option GenePair :=
  if '/' ∈ pair then pairOf (splitOn1 '/' pair) else pairOf (splitOn2 '-' '-' pair)

/-- Total wrapper used to name the concrete `GenePair` constants the
source builds with string literals (for those, construction succeeds). -/
def gpOfString (s : String) : GenePair := (mkGenePair s.data).getD ⟨[], []⟩

/-! ## Counters (`collections.Counter` over `GenePair`) -/

/-- Insertion-ordered association list modelling a Python
`Counter[GenePair]` (also used for plain dicts of counts). -/
def Counter : Type := List (GenePair × Nat)

instance : DecidableEq Counter := by unfold Counter; infer_instance

/-- Dict lookup: value stored under key `g`, if present. -/
def cget : Counter → GenePair → Option Nat
  | [], _ => none
  | p :: rest, g => if p.1 = g then some p.2 else cget rest g

/-- `Counter.get(g, 0)` / `Counter[g]` read: 0 when the key is absent. -/
def cgetD (c : Counter) (g : GenePair) : Nat := (cget c g).getD 0

/-- `counter[g] += n`: update the entry in place, or append a new entry
(created at value `0 + n`) when the key is absent. -/
def cincr : Counter → GenePair → Nat → Counter
  | [], g, n => [(g, n)]
  | p :: rest, g, n =>
    if p.1 = g then (p.1, p.2 + n) :: rest else p :: cincr rest g n

theorem cget_cincr (c : Counter) (g x : GenePair) (n : Nat) :
    cget (cincr c g n) x = if x = g then some (cgetD c g + n) else cget c x := by
  induction c with
  | nil =>
    by_cases hx : x = g
    · simp [cincr, cget, cgetD, hx]
    · have hgx : ¬ g = x := fun h => hx (Eq.symm h)
      simp [cincr, cget, cgetD, hx, hgx]
  | cons p rest ih =>
    by_cases hp : p.1 = g
    · by_cases hx : p.1 = x
      · simp [cincr, cget, cgetD, hp, hx, hp ▸ hx]
      · have hxg : ¬ x = g := fun h => hx (h ▸ hp)
        have hgx : ¬ g = x := fun h => hxg (Eq.symm h)
        simp [cincr, cget, hp, hx, hxg, hgx]
    · by_cases hx : p.1 = x
      · have hxg : ¬ x = g := fun h => hp (hx.trans h)
        simp [cincr, cget, hp, hx, hxg]
      · have : cgetD (p :: rest) g = cgetD rest g := by simp [cgetD, cget, hp]
        simp [cincr, cget, hp, hx, this, ih]

theorem cgetD_cincr (c : Counter) (g x : GenePair) (n : Nat) :
    cgetD (cincr c g n) x = if x = g then cgetD c g + n else cgetD c x := by
  by_cases hx : x = g <;> simp [cgetD, cget_cincr, hx]

/-! ## Call resolver (`TargetedFusionStats.__init__`, lines 64-95) -/

/-- The best-candidate loop of the resolver: starting from
`best_count = -1`, `best_call = None`, scan the candidates and keep the
first one whose frozen-tally count strictly exceeds the best so far. -/
def pickLoop (org : Counter) : Int → Option GenePair → List GenePair → Int × Option GenePair
  | bc, bcall, [] => (bc, bcall)
  | bc, bcall, gp :: rest =>
    let freq : Int := (cgetD org gp : Int)
    if bc < freq then pickLoop org freq (some gp) rest else pickLoop org bc bcall rest

/-- One multi-call resolution step: pick the winner from the frozen tally
`org` and add its frozen count to the mutable table; `none` models the
`assert best_call` failure on an empty candidate list. -/
def resolveStep (org table : Counter) (mc : List GenePair) : Option Counter :=
  match pickLoop org (-1) none mc with
  | (bc, some w) => some (cincr table w bc.toNat)
  | (_, none) => none

/-- The multi-call resolution loop: fold `resolveStep` over the recorded
multi-calls, with the frozen tally `org` fixed throughout. -/
def processMulti (org : Counter) : Counter → List (List GenePair) → Option Counter
  | table, [] => some table
  | table, mc :: rest =>
    match resolveStep org table mc with
    | some t => processMulti org t rest
    | none => none

/-- One line of the caller results file: lines starting with `>` are
records; field 1 of the `|`-split line, itself `,`-split, lists the
candidate gene pairs.  Unique calls are tallied; multi-calls collected. -/
def collectStep (acc : Counter × List (List GenePair)) (l : List Char) :
    Option (Counter × List (List GenePair)) :=
  if (chars ">").isPrefixOf l then
    (((splitOn1 '|' (wsStrip l)).get? 1).map (splitOn1 ',')).bind (fun toks =>
      if toks.length = 1 then
        toks.head?.bind (fun t =>
          (mkGenePair t).map (fun gp => (cincr acc.1 gp 1, acc.2)))
      else
        (toks.mapM mkGenePair).map (fun gps => (acc.1, acc.2 ++ [gps])))
  else some acc

/-- Scan of the caller results file accumulating unique calls and
multi-calls. -/
def collectGo (acc : Counter × List (List GenePair)) :
    List (List Char) → Option (Counter × List (List GenePair))
  | [] => some acc
  | l :: rest =>
    match collectStep acc l with
    | some acc2 => collectGo acc2 rest
    | none => none

/-- Parse the caller results file into the unique-call tally and the list
of multi-calls. -/
def collectCalls (ls : List (List Char)) : Option (Counter × List (List GenePair)) :=
  collectGo ([], []) ls

/-! ## Truth set loading and alias substitution -/

/-- One pass of the truth-set reader: skip header lines starting with
`"Gene"`, else take the first whitespace-separated token of the stripped
line (`IndexError` on a blank line) and add its `GenePair`. -/
def loadTargetsGo (s : Finset GenePair) : List (List Char) → Option (Finset GenePair)
  | [] => some s
  | l :: rest =>
    if (chars "Gene").isPrefixOf l then loadTargetsGo s rest
    else
      match (wsSplit (wsStrip l)).head? with
      | none => none
      | some tok =>
        match mkGenePair tok with
        | none => none
        | some gp => loadTargetsGo (insert gp s) rest

/-- Load the truth set from the target file lines. -/
def loadTargets (ls : List (List Char)) : Option (Finset GenePair) :=
  loadTargetsGo ∅ ls

/-- `GenePair("EXOSC7/KIAA1328")`, the pair removed by the first alias rule. -/
def pEXO : GenePair := gpOfString "EXOSC7/KIAA1328"

/-- `GenePair("CLEC3B/KIAA1328")`, the replacement added by the first alias rule. -/
def pCLEC : GenePair := gpOfString "CLEC3B/KIAA1328"

/-- `GenePair("CCDC88C/STAG3L1")`, the pair removed by the second alias rule. -/
def pCCDC : GenePair := gpOfString "CCDC88C/STAG3L1"

/-- `GenePair("CCDC88C/STAG3")`, the replacement added by the second alias rule. -/
def pSTAG : GenePair := gpOfString "CCDC88C/STAG3"

/-- Python `set.remove`: `none` models the `KeyError` raised when the
element is absent. -/
def setRemove (s : Finset GenePair) (g : GenePair) : Option (Finset GenePair) :=
  if g ∈ s then some (s.erase g) else none

/-- The alias-substitution step building `sorted_fixed_targets` from a
copy of the loaded truth set (lines 54-62 of `simulated_benchmark.py`). -/
def fixTargets (s : Finset GenePair) : Option (Finset GenePair) :=
  (setRemove s pEXO).bind (fun s1 =>
    (setRemove (insert pCLEC s1) pCCDC).map (fun s2 => insert pSTAG s2))

/-! ## The `TargetedFusionStats` object -/

/-- The fields of `TargetedFusionStats` set by its constructor. -/
structure TFS where
  sorted_targets : Finset GenePair
  sorted_fixed_targets : Finset GenePair
  calls : Counter
deriving DecidableEq

/-- `TargetedFusionStats.__init__`: load the truth set, apply the alias
substitutions to a copy, parse the caller results, and resolve
multi-calls against the frozen copy of the unique-call tally. -/
def mkTFS (targetLines faLines : List (List Char)) : Option TFS :=
  (loadTargets targetLines).bind (fun t =>
    (fixTargets t).bind (fun fixed =>
      (collectCalls faLines).bind (fun ucm =>
        (processMulti ucm.1 ucm.1 ucm.2).map (fun calls => ⟨t, fixed, calls⟩))))

/-- The same construction with the alias-substitution step omitted, used
to express that the substitutions touch no other field. -/
def mkTFSNoFix (targetLines faLines : List (List Char)) :
    Option (Finset GenePair × Counter) :=
  (loadTargets targetLines).bind (fun t =>
    (collectCalls faLines).bind (fun ucm =>
      (processMulti ucm.1 ucm.1 ucm.2).map (fun calls => (t, calls))))

/-! ## Scorer (`TargetedFusionStats.stats`) -/

/-- The `(tp, fp, fn)` result record (`Score` NamedTuple). -/
structure Score where
  tp : Nat
  fp : Nat
  fn : Nat
deriving DecidableEq

/-- The dict comprehension `{x: y for x, y in self.calls.items() if y >= threshold}`. -/
def callsAbove (calls : Counter) (threshold : Int) : Counter :=
  calls.filter (fun p => decide (threshold ≤ (p.2 : Int)))

/-- `TargetedFusionStats.stats`: count thresholded calls inside/outside
the fixed truth set, and truth members missing from the thresholded calls. -/
def statsFn (calls : Counter) (targets : Finset GenePair) (threshold : Int) : Score :=
  let ca := callsAbove calls threshold
  let tp := (ca.filter (fun p => decide (p.1 ∈ targets))).length
  let fp := (ca.filter (fun p => decide (p.1 ∉ targets))).length
  let fn := (targets.filter (fun t => t ∉ ca.map Prod.fst)).card
  ⟨tp, fp, fn⟩

/-! ## Log-stats extractor (`util.run_stats`)

Each `re.match` call in the scan loop is embedded as a token list matched
against the line by a backtracking engine: `Tok.star` is a greedy `.*`
(longest consumption tried first, as in Python), the digit/class/space
run tokens take the maximal run (in every pattern below such a run is
followed by an incompatible literal, so this agrees with the regex
engine), and numeric groups are returned in order. -/

/-- Tokens of the embedded regular expressions of `run_stats`. -/
inductive Tok where
  | lit : List Char → Tok
  | num : Tok
  | num2 : Tok
  | fixedn : Nat → Tok
  | skipNum : Tok
  | anyc : Tok
  | cls : Tok
  | ws : Tok
  | star : Tok

/-- Literal token from a string. -/
def TLit (s : String) : Tok := Tok.lit s.data

/-- Value of a digit run. -/
def natOfDigits (ds : List Char) : Nat := ds.foldl (fun n c => 10 * n + (c.toNat - 48)) 0

/-- The character class `[IEW\d]` opening a glog line. -/
def isClsChar (c : Char) : Bool := c = 'I' || c = 'E' || c = 'W' || c.isDigit

mutual
/-- Match a token list at the start of `s` (trailing characters are
allowed, as with `re.match` without an anchor), returning the captured
numbers in order.  Structural recursion on a fuel counter so that the
kernel can evaluate the matcher; every recursive call strictly decreases
the lexicographic measure `(2 * tokens + star-flag, characters)`, so the
fuel supplied by `matchToks` below can never run out. -/
def matchGo : Nat → List Tok → List Char → Option (List Nat)
  | 0, _, _ => none
  | fuel + 1, toks, s =>
    match toks, s with
    | [], _ => some []
    | Tok.lit pre :: ts, s =>
      if pre.isPrefixOf s then matchGo fuel ts (s.drop pre.length) else none
    | Tok.num :: ts, s =>
      let ds := s.takeWhile Char.isDigit
      if ds.isEmpty then none
      else (matchGo fuel ts (s.dropWhile Char.isDigit)).map (natOfDigits ds :: ·)
    | Tok.num2 :: ts, s =>
      let ds := s.takeWhile Char.isDigit
      if ds.length < 2 then none
      else (matchGo fuel ts (s.dropWhile Char.isDigit)).map (natOfDigits ds :: ·)
    | Tok.fixedn n :: ts, s =>
      let ds := s.take n
      if ds.length = n && ds.all Char.isDigit then
        (matchGo fuel ts (s.drop n)).map (natOfDigits ds :: ·)
      else none
    | Tok.skipNum :: ts, s =>
      let ds := s.takeWhile Char.isDigit
      if ds.isEmpty then none else matchGo fuel ts (s.dropWhile Char.isDigit)
    | Tok.anyc :: ts, s =>
      match s with
      | [] => none
      | _ :: rest => matchGo fuel ts rest
    | Tok.cls :: ts, s =>
      let run := s.takeWhile isClsChar
      if run.isEmpty then none else matchGo fuel ts (s.dropWhile isClsChar)
    | Tok.ws :: ts, s =>
      let run := s.takeWhile Char.isWhitespace
      if run.isEmpty then none else matchGo fuel ts (s.dropWhile Char.isWhitespace)
    | Tok.star :: ts, s => starGo fuel ts s

/-- Greedy `.*`: try consuming the whole remaining input first, then
backtrack one character at a time. -/
def starGo : Nat → List Tok → List Char → Option (List Nat)
  | 0, _, _ => none
  | fuel + 1, ts, [] => matchGo fuel ts []
  | fuel + 1, ts, c :: rest =>
    match starGo fuel ts rest with
    | some r => some r
    | none => matchGo fuel ts (c :: rest)
end

/-- Match a pattern against a line, with enough fuel for the recursion
depth bound `(2 * tokens + 2) * (characters + 1)`. -/
def matchToks (toks : List Tok) (s : List Char) : Option (List Nat) :=
  matchGo ((2 * toks.length + 2) * (s.length + 1)) toks s

/-- The timestamp prefix `ts_re` shared by the milestone patterns. -/
def tsToks : List Tok :=
  [Tok.cls, TLit " ", Tok.num2, TLit ":", Tok.fixedn 2, TLit ":", Tok.fixedn 2,
   Tok.anyc, Tok.fixedn 6, Tok.ws, Tok.skipNum, Tok.star]

/-- Pattern for the pipeline-start milestone line. -/
def startToks : List Tok := tsToks ++ [TLit "Start reading geneDB"]

/-- Pattern for the pipeline-completion milestone line. -/
def endToks : List Tok := tsToks ++ [TLit "All done"]

/-- Pattern for the fragment-count lines. -/
def processedToks : List Tok := [Tok.star, TLit "Processed ", Tok.num, TLit " reads in"]

/-- Pattern for the first-stage candidate count (old format). -/
def startFilterToks : List Tok := [Tok.star, TLit "Starting filtering ", Tok.num, TLit " candidates"]

/-- Pattern for the first-stage candidate count (new format). -/
def stage1Toks : List Tok := [Tok.star, TLit "Stats: ", Tok.num, TLit " candidates after stage 1"]

/-- Pattern for the low-complexity / close-proximity survivor counts. -/
def lowComplexToks : List Tok :=
  [Tok.star, TLit " ", Tok.num, TLit " of ", Tok.skipNum, TLit " remaining after removing ",
   Tok.num, TLit " low-complex substring and ", Tok.num, TLit " close proximity"]

/-- Pattern for the duplicate-removal survivor count. -/
def dupToks : List Tok := [Tok.star, TLit " ", Tok.num, TLit " remaining after removing duplicates"]

/-- Pattern for the minspan-filter survivor count. -/
def minspanToks : List Tok :=
  [Tok.star, TLit " ", Tok.num, TLit " remaining after filtering by minspan"]

/-- Pattern for the final-candidate count (old log format). -/
def wroteToks : List Tok := [Tok.star, TLit "Wrote ", Tok.num, TLit " filtered candidates"]

/-- Pattern for the final-candidate count (new log format). -/
def finalToks : List Tok := [Tok.star, TLit "Stats: ", Tok.num, TLit " final candidates"]

/-- Pattern for the structured stats summary line. -/
def summaryToks : List Tok :=
  [Tok.star, TLit "Stats:", Tok.star, TLit "\x7bLowComplexity", Tok.star, TLit " Genes:",
   Tok.num, TLit " Fragments:", Tok.num, TLit " FragmentsWithMatchingGenes:[",
   Tok.num, TLit " ", Tok.num, TLit " ", Tok.num, TLit " ", Tok.num, TLit " ", Tok.num, TLit "]"]

/-- The accumulator variables of the `run_stats` scan loop, at their
initial values in `initState`. -/
structure ScanState where
  start_time : ℚ
  end_time : ℚ
  n_fragments : Nat
  all_candidates : Int
  low_complexity_substring : Int
  close_proximity : Int
  n_remaining_after_close_proximity : Int
  n_remaining_after_duplicates : Int
  n_remaining_after_min_span : Int
  final_candidates : Int
  n_fragments2 : Int
  n_genes : Int
  n_fragment_matches : List Nat
deriving DecidableEq

/-- Initial values of the scan accumulators (`run_stats` lines 581-595). -/
def initState : ScanState :=
  { start_time := 0, end_time := 0, n_fragments := 0,
    all_candidates := -9999999, low_complexity_substring := -9999999,
    close_proximity := -9999999, n_remaining_after_close_proximity := -9999999,
    n_remaining_after_duplicates := -9999999, n_remaining_after_min_span := -9999999,
    final_candidates := -9999999, n_fragments2 := -999999, n_genes := -999999,
    n_fragment_matches := [] }

/-- `parse_time`: seconds since midnight from the glog timestamp groups. -/
def parseTime (h mi s us : Nat) : ℚ :=
  (h : ℚ) * 3600 + (mi : ℚ) * 60 + (s : ℚ) + (us : ℚ) / 1000000

/-- One iteration of the `run_stats` scan loop: every pattern is tried on
the line, in source order, each match updating its accumulators. -/
def scanLine (st0 : ScanState) (line : List Char) : ScanState :=
  let st1 := match matchToks startToks line with
    | some [h, mi, s, us] => { st0 with start_time := parseTime h mi s us }
    | _ => st0
  let st2 := match matchToks endToks line with
    | some [h, mi, s, us] => { st1 with end_time := parseTime h mi s us }
    | _ => st1
  let st3 := match matchToks processedToks line with
    | some [n] => { st2 with n_fragments := st2.n_fragments + n }
    | _ => st2
  let st4 := match matchToks startFilterToks line with
    | some [n] => { st3 with all_candidates := (n : Int) }
    | _ => st3
  let st5 := match matchToks stage1Toks line with
    | some [n] => { st4 with all_candidates := (n : Int) }
    | _ => st4
  let st6 := match matchToks lowComplexToks line with
    | some [a, b, c] =>
      { st5 with n_remaining_after_close_proximity := (a : Int),
                 low_complexity_substring := (b : Int), close_proximity := (c : Int) }
    | _ => st5
  let st7 := match matchToks dupToks line with
    | some [n] => { st6 with n_remaining_after_duplicates := (n : Int) }
    | _ => st6
  let st8 := match matchToks minspanToks line with
    | some [n] => { st7 with n_remaining_after_min_span := (n : Int) }
    | _ => st7
  let st9 := match matchToks wroteToks line with
    | some [n] => { st8 with final_candidates := (n : Int) }
    | _ => st8
  let st10 := match matchToks finalToks line with
    | some [n] => { st9 with final_candidates := (n : Int) }
    | _ => st9
  match matchToks summaryToks line with
  | some [g, f, a, b, c, d, e] =>
    { st10 with n_genes := (g : Int), n_fragments2 := (f : Int),
                n_fragment_matches := [a, b, c, d, e] }
  | _ => st10

/-- The `RunStats` NamedTuple returned by `run_stats`. -/
structure RunStats where
  duration : ℚ
  n_fragments : Nat
  all_candidates : Int
  low_complexity_substring : Int
  close_proximity : Int
  duplicates : Int
  min_span : Int
  abundant_partners : Int
  final_candidates : Int
  n_genes : Int
  n_fragment_matches : List Nat
deriving DecidableEq

/-- The `return RunStats(...)` expression of `run_stats`: derived fields
are differences of the scanned survivor counts, computed after the scan. -/
def finalizeStats (st : ScanState) : RunStats :=
  { duration := st.end_time - st.start_time,
    n_fragments := st.n_fragments,
    all_candidates := st.all_candidates,
    low_complexity_substring := st.low_complexity_substring,
    close_proximity := st.close_proximity,
    duplicates := st.n_remaining_after_close_proximity - st.n_remaining_after_duplicates,
    min_span := st.n_remaining_after_duplicates - st.n_remaining_after_min_span,
    abundant_partners := st.n_remaining_after_min_span - st.final_candidates,
    final_candidates := st.final_candidates,
    n_genes := st.n_genes,
    n_fragment_matches := st.n_fragment_matches }

/-- `run_stats` on the lines of the INFO log file. -/
def runStatsFromLines (lines : List (List Char)) : RunStats :=
  finalizeStats (lines.foldl scanLine initState)

/-! ## Starfusion result analysis (`benchmark_starfusion_result_analysis.main`) -/

/-- The per-result-file scoring block of `main` (lines 58-73): `none`
models a `ZeroDivisionError` in `precision = tp / (tp + fp)`,
`recall = tp / npos` or `f1 = 2 * precision * recall / (precision + recall)`. -/
def analyzeScores (true_gpairs results : Finset GenePair) :
    Option (Nat × Nat × Nat × ℚ) :=
  let npos := true_gpairs.card
  let npredict := results.card
  let tp := (true_gpairs ∩ results).card
  let fn := npos - tp
  let fp := npredict - tp
  if tp + fp = 0 then none
  else
    let prec : ℚ := (tp : ℚ) / ((tp : ℚ) + (fp : ℚ))
    if npos = 0 then none
    else
      let recl : ℚ := (tp : ℚ) / (npos : ℚ)
      if prec + recl = 0 then none
      else some (tp, fn, fp, 2 * prec * recl / (prec + recl))

/-! ## Lemmas about string order and splitting -/

theorem strLt_asymm : ∀ a b : List Char, strLt a b = true → strLt b a = false
  | [], [] => by simp [strLt]
  | [], _ :: _ => by simp [strLt]
  | _ :: _, [] => by simp [strLt]
  | a :: as, b :: bs => by
    by_cases h1 : a < b
    · have h2 : ¬ b < a := lt_asymm h1
      simp [strLt, h1, h2]
    · by_cases h2 : b < a
      · simp [strLt, h1, h2]
      · simp only [strLt, if_neg h1, if_neg h2]
        exact strLt_asymm as bs

theorem strLt_conn : ∀ a b : List Char, strLt a b = false → strLt b a = false → a = b
  | [], [] => fun _ _ => rfl
  | [], _ :: _ => by simp [strLt]
  | _ :: _, [] => by simp [strLt]
  | a :: as, b :: bs => by
    by_cases h1 : a < b
    · simp [strLt, h1]
    · by_cases h2 : b < a
      · simp [strLt, h1, h2]
      · have hab : a = b := le_antisymm (not_lt.mp h2) (not_lt.mp h1)
        subst hab
        simp only [strLt, if_neg (lt_irrefl a), List.cons.injEq, true_and]
        exact strLt_conn as bs

theorem canonPair_comm (a b : List Char) : canonPair a b = canonPair b a := by
  unfold canonPair
  cases h1 : strLt b a
  · cases h2 : strLt a b
    · have hab := strLt_conn a b h2 h1
      simp [hab]
    · simp [h1, h2]
  · cases h2 : strLt a b
    · simp [h1, h2]
    · exact absurd (strLt_asymm a b h2) (by simp [h1])

theorem consHead_length (c : Char) : ∀ L, L ≠ [] → (consHead c L).length = L.length
  | [], h => absurd rfl h
  | _ :: _, _ => rfl

theorem splitOn1_ne_nil (sep : Char) : ∀ l, splitOn1 sep l ≠ []
  | [] => by simp [splitOn1]
  | c :: rest => by
    by_cases h : c = sep
    · simp [splitOn1, h]
    · simp only [splitOn1, if_neg h]
      cases hs : splitOn1 sep rest
      · exact absurd hs (splitOn1_ne_nil sep rest)
      · simp [consHead]

theorem splitOn1_not_mem (sep : Char) : ∀ l, sep ∉ l → splitOn1 sep l = [l]
  | [], _ => rfl
  | c :: rest, h => by
    have hc : ¬ c = sep := fun hcs => h (hcs ▸ List.mem_cons_self c rest)
    have hrest : sep ∉ rest := fun hr => h (List.mem_cons_of_mem c hr)
    simp [splitOn1, hc, splitOn1_not_mem sep rest hrest, consHead]

theorem splitOn1_append (sep : Char) :
    ∀ A B, sep ∉ A → splitOn1 sep (A ++ sep :: B) = A :: splitOn1 sep B
  | [], B, _ => by simp [splitOn1]
  | a :: A, B, h => by
    have ha : ¬ a = sep := fun has => h (has ▸ List.mem_cons_self a A)
    have hA : sep ∉ A := fun hr => h (List.mem_cons_of_mem a hr)
    simp [splitOn1, ha, splitOn1_append sep A B hA, consHead]

theorem splitOn1_length (sep : Char) : ∀ l, (splitOn1 sep l).length = l.count sep + 1
  | [] => by simp [splitOn1]
  | c :: rest => by
    by_cases h : c = sep
    · simp [splitOn1, h, List.count_cons_self, splitOn1_length sep rest]
    · have hne : sep ≠ c := fun hsc => h (Eq.symm hsc)
      rw [splitOn1, if_neg h, consHead_length _ _ (splitOn1_ne_nil sep rest),
        splitOn1_length sep rest, List.count_cons_of_ne hne]

theorem pairOf_isSome : ∀ L, (pairOf L).isSome = true ↔ L.length = 2
  | [] => by simp [pairOf]
  | [_] => by simp [pairOf]
  | [_, _] => by simp [pairOf]
  | _ :: _ :: _ :: L => by simp [pairOf]

/-- Splitting the slash join of two slash-free names gives the two names. -/
theorem mkGenePair_slash (A B : List Char) (hA : '/' ∉ A) (hB : '/' ∉ B) :
    mkGenePair (A ++ '/' :: B) = some (canonPair A B) := by
  have hmem : '/' ∈ A ++ '/' :: B := List.mem_append_right A (List.mem_cons_self _ B)
  rw [mkGenePair, if_pos hmem, splitOn1_append '/' A B hA, splitOn1_not_mem '/' B hB]
  rfl

/-! ## Claim C5: orientation/separator independence of GenePair -/

/-- C5 counterexample: the claim "for all gene-name strings A and B,
GenePair built from A/B equals GenePair built from B--A" fails at
A = "a", B = "b-" (neither name contains a separator): the slash form
parses to the pair (a, b-) while "b-" ++ "--" ++ "a" = "b---a" splits on
its leftmost "--" into (b, -a), a different canonical pair. -/
theorem genePair_orientation_counterexample :
    chars "b---a" = chars "b-" ++ '-' :: '-' :: chars "a" ∧
    mkGenePair (chars "a" ++ '/' :: chars "b-") = some ⟨chars "a", chars "b-"⟩ ∧
    mkGenePair (chars "b---a") = some ⟨chars "-a", chars "b"⟩ ∧
    (⟨chars "a", chars "b-"⟩ : GenePair) ≠ ⟨chars "-a", chars "b"⟩ := by
  decide

/-- C5 (amended): for all names A and B that contain no `'/'` and whose
dash join splits cleanly (splitting `B ++ "--" ++ A` on `"--"` yields
exactly `[B, A]`, which holds in particular when neither name touches a
`'-'` at the junction), the GenePair built from `A ++ "/" ++ B` equals
the GenePair built from `B ++ "--" ++ A`, and both constructions
succeed with the canonical sorted pair. -/
theorem genePair_orientation_indep (A B : List Char) (hA : '/' ∉ A) (hB : '/' ∉ B)
    (hsplit : splitOn2 '-' '-' (B ++ '-' :: '-' :: A) = [B, A]) :
    mkGenePair (A ++ '/' :: B) = some (canonPair A B) ∧
    mkGenePair (B ++ '-' :: '-' :: A) = some (canonPair A B) := by
  refine ⟨mkGenePair_slash A B hA hB, ?_⟩
  have hnot : '/' ∉ B ++ '-' :: '-' :: A := by
    simp only [List.mem_append, List.mem_cons]
    push_neg
    exact ⟨hB, by decide, by decide, hA⟩
  rw [mkGenePair, if_neg hnot, hsplit]
  simp [pairOf, canonPair_comm A B]

/-- C5 witness: the amended statement at A = "KIAA1328", B = "EXOSC7". -/
theorem genePair_orientation_indep_witness :
    mkGenePair (chars "KIAA1328" ++ '/' :: chars "EXOSC7") =
      some (canonPair (chars "KIAA1328") (chars "EXOSC7")) ∧
    mkGenePair (chars "EXOSC7" ++ '-' :: '-' :: chars "KIAA1328") =
      some (canonPair (chars "KIAA1328") (chars "EXOSC7")) :=
  genePair_orientation_indep (chars "KIAA1328") (chars "EXOSC7")
    (by decide) (by decide) (by decide)

/-! ## Claim C6: when GenePair construction fails -/

/-- C6 counterexample: "A/B--C" contains both separator styles (one `'/'`
occurrence and one `"--"` occurrence), which the claim says must fail
with a FormatError, yet `GenePair.__init__` succeeds on it: the slash
branch wins and `"--"` is kept inside the second gene name. -/
theorem genePair_separator_counterexample :
    (chars "A/B--C").count '/' = 1 ∧
    (splitOn2 '-' '-' (chars "A/B--C")).length = 2 ∧
    mkGenePair (chars "A/B--C") = some ⟨chars "A", chars "B--C"⟩ := by
  decide

/-- C6 (amended): construction succeeds iff the string contains exactly
one `'/'` (a `"--"` occurrence is then ignored, not rejected), or
contains no `'/'` and splits into exactly two pieces on `"--"`; it fails
(a `ValueError`, there is no FormatError class in the code) otherwise. -/
theorem genePair_success_iff (p : List Char) :
    (mkGenePair p).isSome = true ↔
      (p.count '/' = 1 ∨ ('/' ∉ p ∧ (splitOn2 '-' '-' p).length = 2)) := by
  by_cases hm : '/' ∈ p
  · have hpos : 0 < p.count '/' := List.count_pos_iff.mpr hm
    rw [mkGenePair, if_pos hm, pairOf_isSome, splitOn1_length]
    constructor
    · intro h
      exact Or.inl (by omega)
    · intro h
      rcases h with h | ⟨habs, _⟩
      · omega
      · exact absurd hm habs
  · have hzero : p.count '/' = 0 := List.count_eq_zero.mpr hm
    rw [mkGenePair, if_neg hm, pairOf_isSome]
    constructor
    · intro h
      exact Or.inr ⟨hm, h⟩
    · intro h
      rcases h with h | ⟨_, h⟩
      · omega
      · exact h

/-! ## Lemmas about the best-candidate loop -/

theorem pickLoop_go (org : Counter) :
    ∀ (l : List GenePair) (b : GenePair),
      ∃ w, pickLoop org ((cgetD org b : Int)) (some b) l = ((cgetD org w : Int), some w) ∧
        ((w = b ∧ ∀ x ∈ l, cgetD org x ≤ cgetD org b) ∨
         (∃ l₁ l₂, l = l₁ ++ w :: l₂ ∧ cgetD org b < cgetD org w ∧
            (∀ x ∈ l₁, cgetD org x < cgetD org w) ∧ (∀ x ∈ l₂, cgetD org x ≤ cgetD org w)))
  | [], b => ⟨b, rfl, Or.inl ⟨rfl, by simp⟩⟩
  | gp :: rest, b => by
    simp only [pickLoop]
    by_cases h : cgetD org b < cgetD org gp
    · have hc : ((cgetD org b : Int)) < (cgetD org gp : Int) := by exact_mod_cast h
      rw [if_pos hc]
      obtain ⟨w, hw, hcases⟩ := pickLoop_go org rest gp
      refine ⟨w, hw, Or.inr ?_⟩
      rcases hcases with ⟨rfl, hall⟩ | ⟨l₁, l₂, rfl, hbw, hpre, hsuf⟩
      · exact ⟨[], rest, rfl, h, by simp, hall⟩
      · refine ⟨gp :: l₁, l₂, rfl, lt_trans h hbw, ?_, hsuf⟩
        intro x hx
        rcases List.mem_cons.mp hx with rfl | hx
        · exact hbw
        · exact hpre x hx
    · have hc : ¬ ((cgetD org b : Int) < (cgetD org gp : Int)) := by exact_mod_cast h
      rw [if_neg hc]
      obtain ⟨w, hw, hcases⟩ := pickLoop_go org rest b
      refine ⟨w, hw, ?_⟩
      rcases hcases with ⟨rfl, hall⟩ | ⟨l₁, l₂, rfl, hbw, hpre, hsuf⟩
      · refine Or.inl ⟨rfl, ?_⟩
        intro x hx
        rcases List.mem_cons.mp hx with rfl | hx
        · exact not_lt.mp h
        · exact hall x hx
      · refine Or.inr ⟨gp :: l₁, l₂, rfl, hbw, ?_, hsuf⟩
        intro x hx
        rcases List.mem_cons.mp hx with rfl | hx
        · exact lt_of_le_of_lt (not_lt.mp h) hbw
        · exact hpre x hx

theorem pickLoop_cons (org : Counter) (c : GenePair) (rest : List GenePair) :
    ∃ w, pickLoop org (-1) none (c :: rest) = ((cgetD org w : Int), some w) ∧
      w ∈ c :: rest ∧ (∀ x ∈ c :: rest, cgetD org x ≤ cgetD org w) ∧
      (∃ l₁ l₂, c :: rest = l₁ ++ w :: l₂ ∧ ∀ x ∈ l₁, cgetD org x < cgetD org w) := by
  have hneg : (-1 : Int) < (cgetD org c : Int) := by
    have := Int.natCast_nonneg (cgetD org c)
    omega
  have hstep : pickLoop org (-1) none (c :: rest) =
      pickLoop org ((cgetD org c : Int)) (some c) rest := by
    simp only [pickLoop, if_pos hneg]
  obtain ⟨w, hw, hcases⟩ := pickLoop_go org rest c
  rw [hstep, hw]
  rcases hcases with ⟨rfl, hall⟩ | ⟨l₁, l₂, hsplit, hbw, hpre, hsuf⟩
  · refine ⟨w, rfl, List.mem_cons_self w rest, ?_, [], rest, rfl, by simp⟩
    intro x hx
    rcases List.mem_cons.mp hx with rfl | hx
    · exact le_refl _
    · exact hall x hx
  · refine ⟨w, rfl, ?_, ?_, c :: l₁, l₂, by rw [hsplit, List.cons_append], ?_⟩
    · exact List.mem_cons_of_mem c (hsplit ▸ List.mem_append_right l₁ (List.mem_cons_self w l₂))
    · intro x hx
      rcases List.mem_cons.mp hx with rfl | hx
      · exact le_of_lt hbw
      · rw [hsplit] at hx
        rcases List.mem_append.mp hx with hx | hx
        · exact le_of_lt (hpre x hx)
        · rcases List.mem_cons.mp hx with rfl | hx
          · exact le_refl _
          · exact hsuf x hx
    · intro x hx
      rcases List.mem_cons.mp hx with rfl | hx
      · exact hbw
      · exact hpre x hx

/-- The winner of a multi-call, as a total function of the frozen tally
(the `getD` branch is unreachable for non-empty candidate lists). -/
def chosen (org : Counter) (mc : List GenePair) : GenePair :=
  ((pickLoop org (-1) none mc).2).getD ⟨[], []⟩

theorem resolveStep_cons (org table : Counter) (c : GenePair) (rest : List GenePair) :
    resolveStep org table (c :: rest) =
      some (cincr table (chosen org (c :: rest)) (cgetD org (chosen org (c :: rest)))) := by
  obtain ⟨w, hw, -, -, -⟩ := pickLoop_cons org c rest
  rw [resolveStep, hw]
  simp [chosen, hw]

/-! ## Claim C2: the multi-call resolution rule -/

/-- C2: for every multi-call with a non-empty candidate list, the
resolver returns (never skips, never crashes) the table updated at a
winner `w` that (i) is a candidate, (ii) has maximal frozen-tally count
among the candidates, (iii) is the first-listed such candidate (all
earlier candidates have strictly smaller counts), and the amount added
is the winner's frozen count (not 1); when every candidate has zero
unambiguous support, the winner is the first-listed candidate and its
table entry after the update holds its previous value (0 if it was
absent, i.e. the entry is created with a +0 contribution). -/
theorem multiCall_resolution (org table : Counter) (mc : List GenePair) (hne : mc ≠ []) :
    ∃ w, (pickLoop org (-1) none mc).2 = some w ∧
      w ∈ mc ∧
      (∀ x ∈ mc, cgetD org x ≤ cgetD org w) ∧
      (∃ l₁ l₂, mc = l₁ ++ w :: l₂ ∧ ∀ x ∈ l₁, cgetD org x < cgetD org w) ∧
      resolveStep org table mc = some (cincr table w (cgetD org w)) ∧
      ((∀ x ∈ mc, cgetD org x = 0) →
        w = mc.head hne ∧ cget (cincr table w (cgetD org w)) w = some (cgetD table w)) := by
  obtain ⟨c, rest, rfl⟩ := List.exists_cons_of_ne_nil hne
  obtain ⟨w, hw, hmem, hmax, ⟨l₁, l₂, hsplit, hpre⟩⟩ := pickLoop_cons org c rest
  refine ⟨w, by rw [hw], hmem, hmax, ⟨l₁, l₂, hsplit, hpre⟩, ?_, ?_⟩
  · rw [resolveStep, hw]
    simp
  · intro hzero
    have hwzero : cgetD org w = 0 := hzero w hmem
    have hl₁ : l₁ = [] := by
      cases hl : l₁ with
      | nil => rfl
      | cons y l₁' =>
        have hy : y ∈ c :: rest := by
          rw [hsplit, hl]
          exact List.mem_append_left _ (List.mem_cons_self y l₁')
        have := hpre y (hl ▸ List.mem_cons_self y l₁')
        rw [hwzero, hzero y hy] at this
        exact absurd this (lt_irrefl 0)
    constructor
    · rw [hl₁, List.nil_append] at hsplit
      injection hsplit with h1 _
      exact h1.symm
    · rw [cget_cincr, if_pos rfl, hwzero]
      simp

/-! ## Order independence machinery -/

/-- The pure form of the multi-call loop for non-empty candidate lists:
each step adds the winner's frozen count under the winner's key. -/
def resolveFold (org table : Counter) (mcs : List (List GenePair)) : Counter :=
  mcs.foldl (fun t mc => cincr t (chosen org mc) (cgetD org (chosen org mc))) table

theorem resolveFold_cons (org table : Counter) (mc : List GenePair)
    (rest : List (List GenePair)) :
    resolveFold org table (mc :: rest) =
      resolveFold org (cincr table (chosen org mc) (cgetD org (chosen org mc))) rest := rfl

theorem processMulti_eq_fold (org : Counter) :
    ∀ (mcs : List (List GenePair)) (table : Counter), (∀ mc ∈ mcs, mc ≠ []) →
      processMulti org table mcs = some (resolveFold org table mcs)
  | [], _, _ => rfl
  | mc :: rest, table, h => by
    obtain ⟨c, cs, rfl⟩ := List.exists_cons_of_ne_nil (h _ (List.mem_cons_self _ _))
    rw [processMulti, resolveStep_cons, resolveFold_cons]
    exact processMulti_eq_fold org rest _ (fun m hm => h m (List.mem_cons_of_mem _ hm))

theorem cget_cincr_comm (t : Counter) (g₁ g₂ x : GenePair) (n₁ n₂ : Nat) :
    cget (cincr (cincr t g₁ n₁) g₂ n₂) x = cget (cincr (cincr t g₂ n₂) g₁ n₁) x := by
  by_cases hx2 : x = g₂
  · subst hx2
    by_cases hx1 : x = g₁
    · subst hx1
      simp only [cget_cincr, cgetD_cincr, eq_self_iff_true, if_true, Option.some.injEq]
      omega
    · simp [cget_cincr, cgetD_cincr, hx1]
  · by_cases hx1 : x = g₁
    · subst hx1
      simp [cget_cincr, cgetD_cincr, hx2]
    · simp [cget_cincr, cgetD_cincr, hx1, hx2]

theorem cget_resolveFold_congr (org : Counter) :
    ∀ (mcs : List (List GenePair)) (t₁ t₂ : Counter),
      (∀ x, cget t₁ x = cget t₂ x) →
      ∀ x, cget (resolveFold org t₁ mcs) x = cget (resolveFold org t₂ mcs) x
  | [], _, _, h => h
  | mc :: rest, t₁, t₂, h => by
    rw [resolveFold_cons, resolveFold_cons]
    apply cget_resolveFold_congr org rest
    intro y
    have hD : cgetD t₁ (chosen org mc) = cgetD t₂ (chosen org mc) := by
      unfold cgetD
      rw [h]
    simp only [cget_cincr, hD, h y]

theorem cget_resolveFold_perm (org : Counter) {l₁ l₂ : List (List GenePair)}
    (hp : l₁.Perm l₂) :
    ∀ (t : Counter) (x : GenePair),
      cget (resolveFold org t l₁) x = cget (resolveFold org t l₂) x := by
  induction hp with
  | nil => intro t x; rfl
  | cons mc _ ih =>
    intro t x
    rw [resolveFold_cons, resolveFold_cons]
    exact ih _ x
  | swap mc₁ mc₂ l =>
    intro t x
    rw [resolveFold_cons, resolveFold_cons, resolveFold_cons, resolveFold_cons]
    exact cget_resolveFold_congr org l _ _ (fun y => cget_cincr_comm t _ _ y _ _) x
  | trans _ _ ih₁ ih₂ =>
    intro t x
    exact (ih₁ t x).trans (ih₂ t x)

theorem mapM_ne_nil : ∀ {ts : List (List Char)} {gps : List GenePair},
    ts ≠ [] → ts.mapM mkGenePair = some gps → gps ≠ []
  | [], _, h, _ => absurd rfl h
  | t :: ts, gps, _, hm => by
    simp only [List.mapM_cons, Option.bind_eq_bind, Option.bind_eq_some, Option.pure_def,
      Option.some.injEq] at hm
    obtain ⟨g, _, gs, _, rfl⟩ := hm
    simp

theorem collectStep_mc_ne_nil (acc acc2 : Counter × List (List GenePair)) (l : List Char)
    (hstep : collectStep acc l = some acc2) (hacc : ∀ mc ∈ acc.2, mc ≠ []) :
    ∀ mc ∈ acc2.2, mc ≠ [] := by
  by_cases hrec : (chars ">").isPrefixOf l
  · rw [collectStep, if_pos hrec] at hstep
    cases hfield : (splitOn1 '|' (wsStrip l)).get? 1 with
    | none =>
      rw [hfield] at hstep
      simp at hstep
    | some field =>
      rw [hfield] at hstep
      simp only [Option.map_some', Option.some_bind] at hstep
      by_cases hlen : (splitOn1 ',' field).length = 1
      · rw [if_pos hlen] at hstep
        cases hhd : (splitOn1 ',' field).head? with
        | none =>
          rw [hhd] at hstep
          simp at hstep
        | some t =>
          rw [hhd] at hstep
          simp only [Option.some_bind] at hstep
          cases hgp : mkGenePair t with
          | none =>
            rw [hgp] at hstep
            simp at hstep
          | some gp =>
            rw [hgp] at hstep
            simp only [Option.map_some', Option.some.injEq] at hstep
            rw [← hstep]
            exact hacc
      · rw [if_neg hlen] at hstep
        cases hmm : (splitOn1 ',' field).mapM mkGenePair with
        | none =>
          rw [hmm] at hstep
          simp at hstep
        | some gps =>
          rw [hmm] at hstep
          simp only [Option.map_some', Option.some.injEq] at hstep
          rw [← hstep]
          intro mc hmc
          rcases List.mem_append.mp hmc with hmc | hmc
          · exact hacc mc hmc
          · rw [List.mem_singleton] at hmc
            exact hmc ▸ mapM_ne_nil (splitOn1_ne_nil ',' field) hmm
  · rw [collectStep, if_neg hrec] at hstep
    injection hstep with h2
    rw [← h2]
    exact hacc

theorem collectGo_mc_ne_nil :
    ∀ (fa : List (List Char)) (acc res : Counter × List (List GenePair)),
      collectGo acc fa = some res → (∀ mc ∈ acc.2, mc ≠ []) → (∀ mc ∈ res.2, mc ≠ [])
  | [], acc, res, h, hacc => by
    simp only [collectGo, Option.some.injEq] at h
    exact h ▸ hacc
  | l :: rest, acc, res, h, hacc => by
    simp only [collectGo] at h
    cases hstep : collectStep acc l with
    | none =>
      rw [hstep] at h
      cases h
    | some acc2 =>
      rw [hstep] at h
      exact collectGo_mc_ne_nil rest acc2 res h
        (collectStep_mc_ne_nil acc acc2 l hstep hacc)

/-! ## Claim C1: order independence of multi-call resolution -/

/-- C1: for every results file whose scan produces the unique-call tally
`uc` and multi-call list `mcs`, resolving the multi-calls in any
permutation of their order succeeds and yields the same final frequency
table (same keys present, same counts), because every step reads only
the frozen tally `uc`. -/
theorem multiCall_order_independent (fa : List (List Char)) (uc : Counter)
    (mcs mcs2 : List (List GenePair)) (hc : collectCalls fa = some (uc, mcs))
    (hp : mcs.Perm mcs2) :
    ∃ c₁ c₂, processMulti uc uc mcs = some c₁ ∧ processMulti uc uc mcs2 = some c₂ ∧
      ∀ g, cget c₁ g = cget c₂ g := by
  have hne : ∀ mc ∈ mcs, mc ≠ [] :=
    collectGo_mc_ne_nil fa ([], []) (uc, mcs) hc (by simp)
  have hne2 : ∀ mc ∈ mcs2, mc ≠ [] := fun mc hm => hne mc (hp.mem_iff.mpr hm)
  exact ⟨resolveFold uc uc mcs, resolveFold uc uc mcs2,
    processMulti_eq_fold uc mcs uc hne, processMulti_eq_fold uc mcs2 uc hne2,
    fun g => cget_resolveFold_perm uc hp uc g⟩

/-! ## Concrete example data for the witnesses -/

/-- The pair A/B. -/
def pAB : GenePair := ⟨chars "A", chars "B"⟩

/-- The pair C/D. -/
def pCD : GenePair := ⟨chars "C", chars "D"⟩

/-- The pair E/F. -/
def pEF : GenePair := ⟨chars "E", chars "F"⟩

/-- A small frozen tally: A/B has 2 unique calls, C/D has 1. -/
def exOrg : Counter := [(pAB, 2), (pCD, 1)]

/-- A small caller results file: one unique call and two multi-calls. -/
def exFa : List (List Char) :=
  [chars ">f1|A/B|x", chars "ACGT", chars ">f2|A/B,C/D|x", chars ">f3|C/D,A/B|x"]

/-- The unique-call tally of `exFa`. -/
def exUc : Counter := [(pAB, 1)]

/-- The multi-call list of `exFa`. -/
def exMcs : List (List GenePair) := [[pAB, pCD], [pCD, pAB]]

/-- A permutation of `exMcs`. -/
def exMcs2 : List (List GenePair) := [[pCD, pAB], [pAB, pCD]]

/-- C1 witness: the order-independence theorem applied to the concrete
results file `exFa` and the swap of its two multi-calls. -/
theorem multiCall_order_independent_witness :
    ∃ c₁ c₂, processMulti exUc exUc exMcs = some c₁ ∧
      processMulti exUc exUc exMcs2 = some c₂ ∧ ∀ g, cget c₁ g = cget c₂ g :=
  multiCall_order_independent exFa exUc exMcs exMcs2 (by decide) (by decide)

/-- C2 witness: the resolution theorem applied to the multi-call
[C/D, A/B] against the tally `exOrg`, where A/B wins with count 2. -/
theorem multiCall_resolution_witness :
    ∃ w, (pickLoop exOrg (-1) none [pCD, pAB]).2 = some w ∧
      w ∈ [pCD, pAB] ∧
      (∀ x ∈ [pCD, pAB], cgetD exOrg x ≤ cgetD exOrg w) ∧
      (∃ l₁ l₂, [pCD, pAB] = l₁ ++ w :: l₂ ∧ ∀ x ∈ l₁, cgetD exOrg x < cgetD exOrg w) ∧
      resolveStep exOrg exOrg [pCD, pAB] = some (cincr exOrg w (cgetD exOrg w)) ∧
      ((∀ x ∈ [pCD, pAB], cgetD exOrg x = 0) →
        w = List.head [pCD, pAB] (by decide) ∧
        cget (cincr exOrg w (cgetD exOrg w)) w = some (cgetD exOrg w)) :=
  multiCall_resolution exOrg exOrg [pCD, pAB] (by decide)

/-! ## Lemmas about the scorer -/

theorem length_filter_partition {α : Type} (l : List α) (q : α → Bool) :
    (l.filter q).length + (l.filter (fun a => ! q a)).length = l.length := by
  induction l with
  | nil => rfl
  | cons a rest ih =>
    cases hq : q a <;> simp [List.filter_cons, hq, ← ih] <;> omega

theorem card_filter_mem_cons (T : Finset GenePair) (g : GenePair) (K : List GenePair)
    (hg : g ∉ K) :
    (T.filter (fun t => t ∈ g :: K)).card =
      (if g ∈ T then 1 else 0) + (T.filter (fun t => t ∈ K)).card := by
  have hsplit : T.filter (fun t => t ∈ g :: K) =
      T.filter (fun t => t = g) ∪ T.filter (fun t => t ∈ K) := by
    rw [← Finset.filter_or]
    exact Finset.filter_congr (fun t _ => by simp [List.mem_cons])
  have hdisj : Disjoint (T.filter (fun t => t = g)) (T.filter (fun t => t ∈ K)) := by
    rw [Finset.disjoint_left]
    intro a ha hb
    rw [Finset.mem_filter] at ha hb
    exact hg (ha.2 ▸ hb.2)
  rw [hsplit, Finset.card_union_of_disjoint hdisj, Finset.filter_eq']
  by_cases hgT : g ∈ T <;> simp [hgT]

theorem length_filter_mem_eq_card (T : Finset GenePair) :
    ∀ (ca : Counter), ((ca.map Prod.fst).Nodup) →
      (ca.filter (fun p => decide (p.1 ∈ T))).length =
        (T.filter (fun t => t ∈ ca.map Prod.fst)).card
  | [], _ => by simp
  | (g, v) :: rest, hnd => by
    have hg : g ∉ rest.map Prod.fst := (List.nodup_cons.mp (by simpa using hnd)).1
    have hrest : (rest.map Prod.fst).Nodup := (List.nodup_cons.mp (by simpa using hnd)).2
    rw [List.map_cons, card_filter_mem_cons T g _ hg, List.filter_cons]
    by_cases hgT : (g, v).1 ∈ T <;>
      simp [hgT, length_filter_mem_eq_card T rest hrest] <;> omega

theorem callsAbove_mem_iff (threshold : Int) (g : GenePair) (hth : 0 < threshold) :
    ∀ (calls : Counter), (calls.map Prod.fst).Nodup →
      (g ∈ (callsAbove calls threshold).map Prod.fst ↔ threshold ≤ (cgetD calls g : Int))
  | [], _ => by
    rw [callsAbove]
    simp only [List.filter_nil, List.map_nil, List.not_mem_nil, false_iff, not_le]
    have h0 : cgetD [] g = 0 := rfl
    rw [h0]
    exact_mod_cast hth
  | (k, v) :: rest, hnd => by
    have hk : k ∉ rest.map Prod.fst := (List.nodup_cons.mp (by simpa using hnd)).1
    have hrest : (rest.map Prod.fst).Nodup := (List.nodup_cons.mp (by simpa using hnd)).2
    have hsubset : ((rest.filter (fun p => decide (threshold ≤ (p.2 : Int)))).map Prod.fst) ⊆
        rest.map Prod.fst := ((List.filter_sublist rest).map Prod.fst).subset
    have ih := callsAbove_mem_iff threshold g hth rest hrest
    rw [callsAbove] at ih
    by_cases hkg : k = g
    · subst hkg
      have hD : cgetD ((k, v) :: rest) k = v := by simp [cgetD, cget]
      rw [hD]
      by_cases hvt : threshold ≤ (v : Int)
      · have hcond : decide (threshold ≤ (((k, v) : GenePair × Nat).2 : Int)) = true := by
          simp [hvt]
        rw [callsAbove, List.filter_cons, if_pos hcond, List.map_cons, List.mem_cons]
        exact ⟨fun _ => hvt, fun _ => Or.inl rfl⟩
      · have hcond : ¬ (decide (threshold ≤ (((k, v) : GenePair × Nat).2 : Int)) = true) := by
          simp [hvt]
        rw [callsAbove, List.filter_cons, if_neg hcond]
        constructor
        · intro hmem
          exact absurd (hsubset hmem) hk
        · intro h
          exact absurd h hvt
    · have hD : cgetD ((k, v) :: rest) g = cgetD rest g := by simp [cgetD, cget, hkg]
      rw [hD]
      by_cases hvt : threshold ≤ (v : Int)
      · have hcond : decide (threshold ≤ (((k, v) : GenePair × Nat).2 : Int)) = true := by
          simp [hvt]
        rw [callsAbove, List.filter_cons, if_pos hcond, List.map_cons, List.mem_cons]
        constructor
        · intro h
          rcases h with h | h
          · exact absurd h.symm hkg
          · exact ih.mp h
        · intro h
          exact Or.inr (ih.mpr h)
      · have hcond : ¬ (decide (threshold ≤ (((k, v) : GenePair × Nat).2 : Int)) = true) := by
          simp [hvt]
        rw [callsAbove, List.filter_cons, if_neg hcond]
        exact ih

/-! ## Claim C3: the scorer -/

/-- C3: for every resolved frequency table with distinct keys, truth set
and threshold: a GenePair is a call iff its count reaches the threshold
(for positive thresholds such as the default 2, counting absent pairs as
0); `tp + fn` equals the truth-set size; `tp + fp` equals the number of
distinct calls at/above threshold; and on the concrete example
(truth {A/B, C/D}, table {A/B: 3, C/D: 1, E/F: 5}, threshold 2) the
result is tp=1, fp=1, fn=1. -/
theorem scorer_spec :
    (∀ (calls : Counter) (targets : Finset GenePair) (threshold : Int),
      (calls.map Prod.fst).Nodup →
        ((0 < threshold → ∀ g,
            (g ∈ (callsAbove calls threshold).map Prod.fst ↔
              threshold ≤ (cgetD calls g : Int))) ∧
         (statsFn calls targets threshold).tp + (statsFn calls targets threshold).fn =
           targets.card ∧
         (statsFn calls targets threshold).tp + (statsFn calls targets threshold).fp =
           ((callsAbove calls threshold).map Prod.fst).toFinset.card)) ∧
    statsFn [(pAB, 3), (pCD, 1), (pEF, 5)] {pAB, pCD} 2 = ⟨1, 1, 1⟩ := by
  constructor
  · intro calls targets threshold hnd
    have hndca : ((callsAbove calls threshold).map Prod.fst).Nodup :=
      hnd.sublist ((List.filter_sublist calls).map Prod.fst)
    refine ⟨fun hth g => callsAbove_mem_iff threshold g hth calls hnd, ?_, ?_⟩
    · show (((callsAbove calls threshold).filter (fun p => decide (p.1 ∈ targets))).length) +
        ((targets.filter (fun t => t ∉ (callsAbove calls threshold).map Prod.fst)).card) =
        targets.card
      rw [length_filter_mem_eq_card targets (callsAbove calls threshold) hndca]
      exact Finset.filter_card_add_filter_neg_card_eq_card
        (fun t => t ∈ (callsAbove calls threshold).map Prod.fst)
    · show (((callsAbove calls threshold).filter (fun p => decide (p.1 ∈ targets))).length) +
        (((callsAbove calls threshold).filter (fun p => decide (p.1 ∉ targets))).length) =
        ((callsAbove calls threshold).map Prod.fst).toFinset.card
      have hpartition := length_filter_partition (callsAbove calls threshold)
        (fun p => decide (p.1 ∈ targets))
      have hneg : ((callsAbove calls threshold).filter
            (fun p => decide (p.1 ∉ targets))) =
          ((callsAbove calls threshold).filter
            (fun p => ! (decide (p.1 ∈ targets)))) := by
        simp only [decide_not]
      rw [hneg, hpartition, List.toFinset_card_of_nodup hndca, List.length_map]
  · decide

/-- C3 witness: the general statement instantiated at the concrete
example table, truth set and threshold. -/
theorem scorer_spec_witness :
    (0 < (2 : Int) → ∀ g,
        (g ∈ (callsAbove [(pAB, 3), (pCD, 1), (pEF, 5)] 2).map Prod.fst ↔
          (2 : Int) ≤ (cgetD [(pAB, 3), (pCD, 1), (pEF, 5)] g : Int))) ∧
    (statsFn [(pAB, 3), (pCD, 1), (pEF, 5)] {pAB, pCD} 2).tp +
      (statsFn [(pAB, 3), (pCD, 1), (pEF, 5)] {pAB, pCD} 2).fn =
      ({pAB, pCD} : Finset GenePair).card ∧
    (statsFn [(pAB, 3), (pCD, 1), (pEF, 5)] {pAB, pCD} 2).tp +
      (statsFn [(pAB, 3), (pCD, 1), (pEF, 5)] {pAB, pCD} 2).fp =
      ((callsAbove [(pAB, 3), (pCD, 1), (pEF, 5)] 2).map Prod.fst).toFinset.card :=
  scorer_spec.1 [(pAB, 3), (pCD, 1), (pEF, 5)] {pAB, pCD} 2 (by decide)

/-! ## Claim C8: alias substitution on the truth set -/

/-- C8: each alias rule raises (modelled as `none`) when the pair it
removes is absent from the truth set; when the rules apply successfully
the fixed truth set contains the replacement pair CLEC3B/KIAA1328 and no
longer contains the removed pair EXOSC7/KIAA1328; and the four constant
pairs are exactly the `GenePair` values built from the source's literal
strings. -/
theorem alias_substitution_spec :
    (∀ s : Finset GenePair,
      (pEXO ∉ s → fixTargets s = none) ∧
      (pEXO ∈ s → pCCDC ∉ s → fixTargets s = none) ∧
      (∀ t, fixTargets s = some t → pCLEC ∈ t ∧ pEXO ∉ t)) ∧
    mkGenePair (chars "EXOSC7/KIAA1328") = some pEXO ∧
    mkGenePair (chars "CLEC3B/KIAA1328") = some pCLEC ∧
    mkGenePair (chars "CCDC88C/STAG3L1") = some pCCDC ∧
    mkGenePair (chars "CCDC88C/STAG3") = some pSTAG := by
  constructor
  · intro s
    refine ⟨?_, ?_, ?_⟩
    · intro h
      rw [fixTargets, setRemove, if_neg h, Option.none_bind]
    · intro h1 h2
      rw [fixTargets, setRemove, if_pos h1, Option.some_bind]
      have habs : pCCDC ∉ insert pCLEC (s.erase pEXO) := by
        intro hmem
        rcases Finset.mem_insert.mp hmem with h | h
        · exact absurd h (by decide)
        · exact h2 (Finset.mem_of_mem_erase h)
      rw [setRemove, if_neg habs, Option.map_none']
    · intro t ht
      rw [fixTargets] at ht
      by_cases h1 : pEXO ∈ s
      · rw [setRemove, if_pos h1, Option.some_bind] at ht
        by_cases h2 : pCCDC ∈ insert pCLEC (s.erase pEXO)
        · rw [setRemove, if_pos h2, Option.map_some', Option.some.injEq] at ht
          subst ht
          constructor
          · apply Finset.mem_insert_of_mem
            rw [Finset.mem_erase]
            exact ⟨by decide, Finset.mem_insert_self _ _⟩
          · intro hmem
            rcases Finset.mem_insert.mp hmem with h | h
            · exact absurd h (by decide)
            · have hmem2 := Finset.mem_of_mem_erase h
              rcases Finset.mem_insert.mp hmem2 with h3 | h3
              · exact absurd h3 (by decide)
              · exact absurd h3 (Finset.not_mem_erase pEXO s)
        · rw [setRemove, if_neg h2, Option.map_none'] at ht
          cases ht
      · rw [setRemove, if_neg h1, Option.none_bind] at ht
        cases ht
  · exact ⟨by decide, by decide, by decide, by decide⟩

/-- C8 witness: the rule theorem applied to the concrete truth set
containing exactly the two removed pairs; the fixed set is computed. -/
theorem alias_substitution_spec_witness :
    pCLEC ∈ ({pSTAG, pCLEC} : Finset GenePair) ∧
    pEXO ∉ ({pSTAG, pCLEC} : Finset GenePair) :=
  ((alias_substitution_spec.1 {pEXO, pCCDC}).2.2 {pSTAG, pCLEC} (by rfl))

/-! ## Claim C10: the substitution step touches only the fixed set -/

/-- C10: whenever the constructor succeeds, the loaded truth set is held
unchanged in `sorted_targets` (the substitutions are applied to a copy),
the fixed set is exactly the substitution applied to that untouched set,
and every other field (the resolved call table) equals what the same
construction computes with the substitution step omitted. -/
theorem ctor_frame (tl fl : List (List Char)) (st : TFS) (h : mkTFS tl fl = some st) :
    loadTargets tl = some st.sorted_targets ∧
    fixTargets st.sorted_targets = some st.sorted_fixed_targets ∧
    mkTFSNoFix tl fl = some (st.sorted_targets, st.calls) := by
  rw [mkTFS] at h
  cases ht : loadTargets tl with
  | none =>
    rw [ht, Option.none_bind] at h
    cases h
  | some t =>
    rw [ht, Option.some_bind] at h
    cases hf : fixTargets t with
    | none =>
      rw [hf, Option.none_bind] at h
      cases h
    | some fixed =>
      rw [hf, Option.some_bind] at h
      cases hc : collectCalls fl with
      | none =>
        rw [hc, Option.none_bind] at h
        cases h
      | some ucm =>
        rw [hc, Option.some_bind] at h
        cases hp : processMulti ucm.1 ucm.1 ucm.2 with
        | none =>
          rw [hp, Option.map_none'] at h
          cases h
        | some calls =>
          rw [hp, Option.map_some', Option.some.injEq] at h
          subst h
          refine ⟨rfl, hf, ?_⟩
          rw [mkTFSNoFix, ht, Option.some_bind, hc, Option.some_bind, hp, Option.map_some']

/-- Concrete truth-set file lines for the C10 witness. -/
def exTargetLines : List (List Char) :=
  [chars "Gene header", chars "EXOSC7/KIAA1328 x", chars "CCDC88C/STAG3L1 y"]

/-- C10 witness: the frame theorem applied to the concrete truth-set
lines and results file, whose construction evaluates to concrete sets. -/
theorem ctor_frame_witness :
    loadTargets exTargetLines = some (TFS.mk {pCCDC, pEXO} {pSTAG, pCLEC} [(pAB, 3)]).sorted_targets ∧
    fixTargets (TFS.mk {pCCDC, pEXO} {pSTAG, pCLEC} [(pAB, 3)]).sorted_targets =
      some (TFS.mk {pCCDC, pEXO} {pSTAG, pCLEC} [(pAB, 3)]).sorted_fixed_targets ∧
    mkTFSNoFix exTargetLines exFa =
      some ((TFS.mk {pCCDC, pEXO} {pSTAG, pCLEC} [(pAB, 3)]).sorted_targets,
        (TFS.mk {pCCDC, pEXO} {pSTAG, pCLEC} [(pAB, 3)]).calls) :=
  ctor_frame exTargetLines exFa (TFS.mk {pCCDC, pEXO} {pSTAG, pCLEC} [(pAB, 3)]) (by rfl)

/-! ## Claim C4: derived log statistics -/

/-- The concrete log lines of the claim (with a minimal non-matching
prefix standing for the glog header the patterns skip over). -/
def exLogLines : List (List Char) :=
  [chars "x] Starting filtering 100 candidates",
   chars "x] 80 of 100 remaining after removing 15 low-complex substring and 5 close proximity",
   chars "x] 70 remaining after removing duplicates",
   chars "x] 60 remaining after filtering by minspan",
   chars "x] Stats: 55 final candidates"]

/-- C4: the derived fields `duplicates`, `min_span`, `abundant_partners`
are computed once, after the scan of all lines, as differences of the
consecutive stage-survivor counts captured during the scan; on the
claim's concrete log lines the result has all_candidates=100,
duplicates=10, min_span=10, abundant_partners=5, final_candidates=55. -/
theorem run_stats_derived_fields :
    (∀ lines : List (List Char),
      (runStatsFromLines lines).duplicates =
        (lines.foldl scanLine initState).n_remaining_after_close_proximity -
          (lines.foldl scanLine initState).n_remaining_after_duplicates ∧
      (runStatsFromLines lines).min_span =
        (lines.foldl scanLine initState).n_remaining_after_duplicates -
          (lines.foldl scanLine initState).n_remaining_after_min_span ∧
      (runStatsFromLines lines).abundant_partners =
        (lines.foldl scanLine initState).n_remaining_after_min_span -
          (lines.foldl scanLine initState).final_candidates ∧
      (runStatsFromLines lines).final_candidates =
        (lines.foldl scanLine initState).final_candidates) ∧
    runStatsFromLines exLogLines =
      { duration := 0, n_fragments := 0, all_candidates := 100,
        low_complexity_substring := 15, close_proximity := 5,
        duplicates := 10, min_span := 10, abundant_partners := 5,
        final_candidates := 55, n_genes := -999999, n_fragment_matches := [] } := by
  constructor
  · exact fun lines => ⟨rfl, rfl, rfl, rfl⟩
  · have hstate : exLogLines.foldl scanLine initState =
        { start_time := 0, end_time := 0, n_fragments := 0, all_candidates := 100,
          low_complexity_substring := 15, close_proximity := 5,
          n_remaining_after_close_proximity := 80, n_remaining_after_duplicates := 70,
          n_remaining_after_min_span := 60, final_candidates := 55,
          n_fragments2 := -999999, n_genes := -999999, n_fragment_matches := [] } := by
      decide
    rw [runStatsFromLines, hstate]
    simp only [finalizeStats, RunStats.mk.injEq]
    norm_num

/-! ## Claim C7: sentinel values for unmatched fields -/

/-- A log line on which none of the eleven patterns matches. -/
def lineUnmatched (l : List Char) : Bool :=
  (matchToks startToks l).isNone && (matchToks endToks l).isNone &&
  (matchToks processedToks l).isNone && (matchToks startFilterToks l).isNone &&
  (matchToks stage1Toks l).isNone && (matchToks lowComplexToks l).isNone &&
  (matchToks dupToks l).isNone && (matchToks minspanToks l).isNone &&
  (matchToks wroteToks l).isNone && (matchToks finalToks l).isNone &&
  (matchToks summaryToks l).isNone

theorem scanLine_unmatched (st : ScanState) (l : List Char)
    (h : lineUnmatched l = true) : scanLine st l = st := by
  simp only [lineUnmatched, Bool.and_eq_true, Option.isNone_iff_eq_none] at h
  obtain ⟨⟨⟨⟨⟨⟨⟨⟨⟨⟨h1, h2⟩, h3⟩, h4⟩, h5⟩, h6⟩, h7⟩, h8⟩, h9⟩, h10⟩, h11⟩ := h
  simp only [scanLine, h1, h2, h3, h4, h5, h6, h7, h8, h9, h10, h11]

/-- C7 counterexample: on a log in which no pattern ever matches (the
empty log), the total fragment count `n_fragments` — a field downstream
consumers divide by — is reported as 0, and `duration` as 0, both
plausible-looking defaults rather than the claimed "unset" sentinel;
the derived `duplicates` difference also collapses to 0. -/
theorem run_stats_sentinel_counterexample :
    (runStatsFromLines []).n_fragments = 0 ∧ (runStatsFromLines []).duration = 0 ∧
    (runStatsFromLines []).duplicates = 0 := by
  have h : runStatsFromLines [] = finalizeStats initState := by
    rw [runStatsFromLines, List.foldl_nil]
  rw [h]
  refine ⟨rfl, ?_, by norm_num [finalizeStats, initState]⟩
  show initState.end_time - initState.start_time = 0
  norm_num [initState]

/-- C7 (amended): when no pattern matches during the scan, the fields
`all_candidates`, `low_complexity_substring`, `close_proximity`,
`final_candidates` and `n_genes` are reported as the negative sentinels
-9999999 / -999999 and `n_fragment_matches` as the empty list, but
`n_fragments` and `duration` are reported as 0, and the derived
differences `duplicates`, `min_span`, `abundant_partners` are reported
as 0 (sentinel minus sentinel) — so the fields downstream consumers
divide by carry a plausible-looking 0, not an unset marker. -/
theorem run_stats_unmatched_sentinels (lines : List (List Char))
    (h : ∀ l ∈ lines, lineUnmatched l = true) :
    runStatsFromLines lines =
      { duration := 0, n_fragments := 0, all_candidates := -9999999,
        low_complexity_substring := -9999999, close_proximity := -9999999,
        duplicates := 0, min_span := 0, abundant_partners := 0,
        final_candidates := -9999999, n_genes := -999999, n_fragment_matches := [] } := by
  have hgen : ∀ (m : List (List Char)) (st : ScanState),
      (∀ x ∈ m, lineUnmatched x = true) → m.foldl scanLine st = st := by
    intro m
    induction m with
    | nil => intro st _; rfl
    | cons a rest ih =>
      intro st hl
      rw [List.foldl_cons, scanLine_unmatched st a (hl a (List.mem_cons_self a rest))]
      exact ih st (fun x hx => hl x (List.mem_cons_of_mem a hx))
  rw [runStatsFromLines, hgen lines initState h]
  simp only [finalizeStats, initState, RunStats.mk.injEq]
  norm_num

/-- C7 witness: the amended statement on a one-line log that matches no
pattern. -/
theorem run_stats_unmatched_sentinels_witness :
    runStatsFromLines [chars "hello world"] =
      { duration := 0, n_fragments := 0, all_candidates := -9999999,
        low_complexity_substring := -9999999, close_proximity := -9999999,
        duplicates := 0, min_span := 0, abundant_partners := 0,
        final_candidates := -9999999, n_genes := -999999, n_fragment_matches := [] } :=
  run_stats_unmatched_sentinels [chars "hello world"] (by decide)

/-! ## Claim C9: unguarded division in the starfusion analysis -/

/-- C9 (code bug): with a non-empty truth set (npos = 1) and an empty
result set, `tp + fp = 0`, and `main` computes
`precision = tp / (tp + fp)` with no guard: the embedded scoring block
returns `none`, the model of the `ZeroDivisionError` the Python code
raises, contradicting the requirement that the division be guarded and
reported as "undefined". -/
theorem starfusion_division_unguarded :
    ({pAB} : Finset GenePair).card = 1 ∧ (∅ : Finset GenePair).card = 0 ∧
    analyzeScores {pAB} ∅ = none := by
  refine ⟨rfl, rfl, ?_⟩
  rw [analyzeScores]
  norm_num
